import Mathlib

/-!
Verification development for the `plot_clustering.py` example repository.

The repository ships a single example script that calls a functional-data
clustering kernel (`KMeans` / `FuzzyKMeans`).  The kernel itself is not part of
the repository sources, so it is modelled here from the specification
(sections 3, 4.1, 7 of the spec); the script-level constants are embedded
directly from `src/examples/plot_clustering.py`.  Real arithmetic is modelled
with `ℚ`, so the spec's floating tolerances become exact equalities.
-/

set_option autoImplicit false

namespace Clustering

/-- Modelled from the spec: a `FunctionalObservation` (spec section 3) — a sampled
curve given by an ordered grid of domain points and the value at each grid point.
The clustering kernel holding this type (`skfda.ml.clustering`) is not among the
repository sources. -/
structure Obs where
  grid : List ℚ
  values : List ℚ
  deriving DecidableEq

/-- Modelled from the spec: the mode tag (spec section 9, "tagged variant
enum {Hard, Fuzzy} carrying mode-specific parameters").  The fuzzy constructor
carries the membership exponent `2/(fuzziness-1)` as a natural number (e.g.
`fuzziness = 2` gives exponent `2`), keeping all arithmetic in `ℚ`. -/
inductive Mode where
  | hard : Mode
  | fuzzy : ℕ → Mode
  deriving DecidableEq

/-- Modelled from the spec: hard labels or fuzzy membership vectors
(spec section 3, `ClusteringResult`). -/
inductive Assignment where
  | hard : List ℕ → Assignment
  | fuzzy : List (List ℚ) → Assignment
  deriving DecidableEq

/-- Modelled from the spec: error taxonomy (spec section 7).  `NotConverged` is
deliberately absent: it is a reported flag on the result, never an error. -/
inductive ClusterError where
  | invalidArgument : ClusterError
  deriving DecidableEq

/-- Modelled from the spec: the immutable fitted model (spec sections 3 and 9):
grid, centroids, mode, final labels/memberships, iteration count and
convergence flag. -/
structure ClusteringModel where
  grid : List ℚ
  k : ℕ
  mode : Mode
  centroids : List (List ℚ)
  assign : Assignment
  iterations : ℕ
  converged : Bool
  deriving DecidableEq

/-- Modelled from the spec: trapezoidal quadrature weight of grid point `i`
(spec section 4.1, "summing with trapezoidal weights").  For an interior point
it is `(g[i+1] - g[i-1])/2`; the endpoint formulas are obtained by clamping the
neighbour indices. -/
def trapWeight (g : List ℚ) (i : ℕ) : ℚ :=
  (g.getD (min (i + 1) (g.length - 1)) 0 - g.getD (i - 1) 0) / 2

/-- Modelled from the spec: the integrated pointwise squared-difference distance
between two curves sampled on the shared grid `g` (spec section 4.1). -/
def dist2 (g : List ℚ) (x y : List ℚ) : ℚ :=
  ((List.range g.length).map
    (fun i => trapWeight g i * (x.getD i 0 - y.getD i 0) ^ 2)).sum

/-- Modelled from the spec: distances of one observation to every centroid. -/
def distsTo (g : List ℚ) (cs : List (List ℚ)) (x : List ℚ) : List ℚ :=
  cs.map (fun c => dist2 g c x)

/-- Index of the first minimum of a list of distances: nearest centroid with
ties broken by lowest cluster index (spec section 4.1(b)). -/
def argminIdx : List ℚ → ℕ
  | [] => 0
  | [_] => 0
  | d :: e :: rest =>
      if d ≤ (e :: rest).getD (argminIdx (e :: rest)) 0 then 0
      else argminIdx (e :: rest) + 1

/-- Modelled from the spec: hard assignment step — each observation goes to its
nearest centroid, ties to the lowest cluster index (spec section 4.1(b)). -/
def assignHard (g : List ℚ) (cs : List (List ℚ)) (xs : List (List ℚ)) : List ℕ :=
  xs.map (fun x => argminIdx (distsTo g cs x))

/-- Observations carrying label `j` under a hard assignment. -/
def clusterMembers (labels : List ℕ) (xs : List (List ℚ)) (j : ℕ) :
    List (List ℚ) :=
  (labels.zip xs).filterMap (fun p => if p.1 = j then some p.2 else none)

/-- Pointwise mean of a collection of curves, on a grid of `len` points. -/
def pointwiseMean (vs : List (List ℚ)) (len : ℕ) : List ℚ :=
  (List.range len).map
    (fun t => (vs.map (fun v => v.getD t 0)).sum / (vs.length : ℚ))

/-- Modelled from the spec: one hard-mode iteration (spec section 4.1(b)) —
assign, then recompute each centroid as the pointwise mean of its assigned
observations.  A cluster that receives no observation keeps its centroid. -/
def hardStep (g : List ℚ) (xs : List (List ℚ)) (cs : List (List ℚ)) :
    List (List ℚ) :=
  (List.range cs.length).map
    (fun j =>
      if clusterMembers (assignHard g cs xs) xs j = [] then cs.getD j []
      else pointwiseMean (clusterMembers (assignHard g cs xs) xs j) g.length)

/-- Index of the first zero entry of a list, if any. -/
def zeroIdx : List ℚ → Option ℕ
  | [] => none
  | d :: rest => if d = 0 then some 0 else (zeroIdx rest).map (· + 1)

/-- Modelled from the spec: fuzzy membership vector of one observation given its
distances to the centroids (spec section 4.1(c)): weights inversely proportional
to the distance raised to the modelled exponent, renormalized to sum to `1`;
an observation coinciding with a centroid (distance `0`) gets full membership
to the first such centroid and zero elsewhere. -/
def membership (e : ℕ) (ds : List ℚ) : List ℚ :=
  match zeroIdx ds with
  | some i => (List.range ds.length).map (fun j => if j = i then 1 else 0)
  | none =>
      (ds.map (fun d => (1 / d) ^ e)).map
        (fun w => w / (ds.map (fun d => (1 / d) ^ e)).sum)

/-- Membership weights of all observations for cluster `j`. -/
def fuzzyWeights (e : ℕ) (g : List ℚ) (xs cs : List (List ℚ)) (j : ℕ) :
    List ℚ :=
  (xs.map (fun x => membership e (distsTo g cs x))).map (fun u => u.getD j 0)

/-- Weighted pointwise mean of the observations with weights `ws`. -/
def weightedPointwiseMean (ws : List ℚ) (xs : List (List ℚ)) (len : ℕ) :
    List ℚ :=
  (List.range len).map
    (fun t => ((ws.zip xs).map (fun p => p.1 * p.2.getD t 0)).sum / ws.sum)

/-- Modelled from the spec: one fuzzy-mode iteration (spec section 4.1(c)) —
membership update, then centroids recomputed as weighted pointwise means.
A cluster with zero total weight keeps its centroid. -/
def fuzzyStep (e : ℕ) (g : List ℚ) (xs : List (List ℚ))
    (cs : List (List ℚ)) : List (List ℚ) :=
  (List.range cs.length).map
    (fun j =>
      if (fuzzyWeights e g xs cs j).sum = 0 then cs.getD j []
      else weightedPointwiseMean (fuzzyWeights e g xs cs j) xs g.length)

/-- Largest absolute pointwise movement between two aligned centroids. -/
def centroidMove (a b : List ℚ) : ℚ :=
  ((a.zip b).map (fun p => |p.1 - p.2|)).foldr max 0

/-- Modelled from the spec: maximum pointwise movement of any centroid between
two iterations (spec section 4.1, convergence test). -/
def maxMove (as bs : List (List ℚ)) : ℚ :=
  ((as.zip bs).map (fun p => centroidMove p.1 p.2)).foldr max 0

/-- Modelled from the spec: the fit loop (spec section 4.1) — repeat the update
step until the maximum centroid movement falls below `tol` or the iteration
budget is exhausted.  Returns the final centroids, the number of iterations
performed, and the convergence flag. -/
def runLoop (step : List (List ℚ) → List (List ℚ)) (tol : ℚ) :
    ℕ → List (List ℚ) → List (List ℚ) × ℕ × Bool
  | 0, cs => (cs, 0, false)
  | Nat.succ n, cs =>
      if maxMove cs (step cs) < tol then (step cs, 1, true)
      else
        ((runLoop step tol n (step cs)).1,
         (runLoop step tol n (step cs)).2.1 + 1,
         (runLoop step tol n (step cs)).2.2)

/-- Modelled from the spec: a deterministic linear-congruential generator used
for reproducible centroid initialization (spec sections 4.1 and 9: a documented,
reproducible pseudo-random scheme seeded by the given seed). -/
def lcg (s : ℕ) : ℕ := (1103515245 * s + 12345) % 2147483648

/-- Modelled from the spec: deterministic sampling of `k` distinct indices from
the available pool, driven by the seed (spec section 4.1, "sampling k distinct
observations using seed"). -/
def pickDistinct : ℕ → ℕ → List ℕ → List ℕ
  | _, 0, _ => []
  | s, Nat.succ k2, avail =>
      if avail = [] then []
      else
        avail.getD (lcg s % avail.length) 0 ::
          pickDistinct (lcg s) k2 (avail.eraseIdx (lcg s % avail.length))

/-- Modelled from the spec: initial centroids are `k` distinct observations
sampled deterministically from the seed (spec section 4.1). -/
def initCentroids (seed k : ℕ) (xs : List (List ℚ)) : List (List ℚ) :=
  (pickDistinct seed k (List.range xs.length)).map (fun i => xs.getD i [])

/-- All observations of a dataset carry the same grid (spec section 3
invariant). -/
def gridsMatch (d : List Obs) : Prop :=
  ∀ o ∈ d, o.grid = (d.headD ⟨[], []⟩).grid

instance (d : List Obs) : Decidable (gridsMatch d) :=
  List.decidableBAll _ d

/-- The grid is ordered: its entries are monotone in the index (spec section 3,
"a shared ordered grid of domain points"). -/
def gridOrdered (g : List ℚ) : Prop :=
  ∀ b, b < g.length → ∀ a, a < b + 1 → g.getD a 0 ≤ g.getD b 0

instance (g : List ℚ) : Decidable (gridOrdered g) :=
  Nat.decidableBallLT _ _

/-- The iteration step function selected by the mode. -/
def stepFn (mode : Mode) (g : List ℚ) (xs : List (List ℚ)) :
    List (List ℚ) → List (List ℚ) :=
  match mode with
  | Mode.hard => hardStep g xs
  | Mode.fuzzy e => fuzzyStep e g xs

/-- Final labels or memberships of `xs` with respect to centroids `cs`. -/
def mkAssign (mode : Mode) (g : List ℚ) (cs : List (List ℚ))
    (xs : List (List ℚ)) : Assignment :=
  match mode with
  | Mode.hard => Assignment.hard (assignHard g cs xs)
  | Mode.fuzzy e =>
      Assignment.fuzzy (xs.map (fun x => membership e (distsTo g cs x)))

/-- Modelled from the spec: the model produced by a successful `fit`
(spec section 4.1) — initializes `k` centroids from the seed, runs the
iteration loop, and packages final labels/memberships, centroids, iteration
count and convergence flag. -/
def fitModel (d : List Obs) (k : ℕ) (mode : Mode) (seed maxIter : ℕ)
    (tol : ℚ) : ClusteringModel :=
  let g := (d.headD ⟨[], []⟩).grid
  let xs := d.map (fun o => o.values)
  let res := runLoop (stepFn mode g xs) tol maxIter (initCentroids seed k xs)
  { grid := g
    k := k
    mode := mode
    centroids := res.1
    assign := mkAssign mode g res.1 xs
    iterations := res.2.1
    converged := res.2.2 }

/-- Modelled from the spec: `fit` (spec section 4.1).  Validates the arguments
(`InvalidArgument` if the dataset is empty, `k < 1`, `k` exceeds the sample
count, or the grids differ) and otherwise returns the fitted model. -/
def fit (d : List Obs) (k : ℕ) (mode : Mode) (seed maxIter : ℕ) (tol : ℚ) :
    Except ClusterError ClusteringModel :=
  if d = [] ∨ k < 1 ∨ d.length < k ∨ ¬ gridsMatch d then
    Except.error ClusterError.invalidArgument
  else Except.ok (fitModel d k mode seed maxIter tol)

/-- Modelled from the spec: `predict` (spec section 4.1) — assigns observations
to the fitted centroids with the same distance rule, without moving the
centroids; `InvalidArgument` on a grid mismatch. -/
def predict (m : ClusteringModel) (d : List Obs) :
    Except ClusterError Assignment :=
  if ∀ o ∈ d, o.grid = m.grid then
    Except.ok (mkAssign m.mode m.grid m.centroids (d.map (fun o => o.values)))
  else Except.error ClusterError.invalidArgument

/-- The centroid trajectory of a fit: the `i`-th iterate of the update step
starting from the initial centroids.  `fit` reaching `maxIter` iterations
without the movement falling below `tol` means every step `i < maxIter` of
this trajectory fails the tolerance test. -/
def centroidIter (d : List Obs) (k : ℕ) (mode : Mode) (seed : ℕ) (i : ℕ) :
    List (List ℚ) :=
  (stepFn mode (d.headD ⟨[], []⟩).grid (d.map (fun o => o.values)))^[i]
    (initCentroids seed k (d.map (fun o => o.values)))

end Clustering

namespace Script

/-!
Embedding of the script-level constants of `src/examples/plot_clustering.py`.
A matplotlib color is modelled by its colormap coordinate (the `ℚ` value the
script feeds to `colormap(...)`), which determines it uniquely.
-/

/-- Line 34: the ten sample indices selected from the weather dataset. -/
def indices_samples : List ℕ := [1, 3, 5, 10, 14, 17, 21, 25, 27, 30]

/-- The empty string, used as the `getD` fallback for label lookups. -/
def emptyLabel : String := ""

/-- Modelled from the spec: `dataset["target_names"]` of the fetched Canadian
Weather dataset (an external download, not among the repository sources): the
four climate group names in index order. -/
def target_names : List String :=
  ["Arctic", "Atlantic", "Continental", "Pacific"]

/-- Modelled from the spec: `climate_by_sample` (line 42), the target group of
each chosen sample.  The dataset itself is an external download; the script's
comment (lines 44-50) pins down what matters: the ten samples cover exactly
the target groups `1`, `2` and `3`.  A representative list with exactly that
property is used. -/
def climate_by_sample : List ℕ := [1, 1, 2, 1, 3, 2, 1, 3, 2, 3]

/-- Line 53: `np.unique(climate_by_sample)` — the sorted distinct target
values. -/
def indices_target_groups : List ℕ :=
  (List.range (climate_by_sample.foldr max 0 + 1)).filter
    (fun v => v ∈ climate_by_sample)

/-- Fancy indexing `l[idx]` of numpy, with an explicit fallback value. -/
def applyIndices {α : Type} (dflt : α) (l : List α) (idx : List ℕ) : List α :=
  idx.map (fun i => l.getD i dflt)

/-- Line 54: `climates = dataset["target_names"][indices_target_groups]`. -/
def climates : List String :=
  applyIndices emptyLabel target_names indices_target_groups

/-- Line 58: `n_climates = len(climates)`. -/
def n_climates : ℕ := climates.length

/-- Line 59: `climate_colors = colormap(np.arange(n_climates) /
(n_climates - 1))`, each color modelled by its colormap coordinate. -/
def climate_colors : List ℚ :=
  (List.range n_climates).map (fun i => (i : ℚ) / ((n_climates : ℚ) - 1))

/-- Line 69: `n_clusters = n_climates`. -/
def n_clusters : ℕ := n_climates

/-- Line 91: `cluster_colors = climate_colors[np.array([0, 2, 1])]`. -/
def cluster_colors : List ℚ := applyIndices 0 climate_colors [0, 2, 1]

/-- Line 92: `cluster_labels = climates[np.array([0, 2, 1])]`. -/
def cluster_labels : List String := applyIndices emptyLabel climates [0, 2, 1]

/-- Lines 150, 155, 160: the `sort=` arguments the script passes to
`plot_cluster_bars`, in order. -/
def sort_args : List ℕ := [0, 1, 2]

end Script

namespace Clustering

/-- A small concrete dataset (three constant curves on the grid `[0, 1]`)
used to instantiate the general theorems on explicit inputs. -/
def Dw : List Obs :=
  [⟨[0, 1], [0, 0]⟩, ⟨[0, 1], [2, 2]⟩, ⟨[0, 1], [4, 4]⟩]

/-- A concrete dataset (four constant curves on the grid `[0, 1]`) on which a
one-iteration hard fit leaves a centroid outside the hull of the observations
that the final labels assign to its cluster. -/
def Dc : List Obs :=
  [⟨[0, 1], [0, 0]⟩, ⟨[0, 1], [2, 2]⟩, ⟨[0, 1], [4, 4]⟩, ⟨[0, 1], [20, 20]⟩]

/-- Fallback model used when extracting the payload of a `fit` result. -/
def defaultModel : ClusteringModel :=
  ⟨[], 0, Mode.hard, [], Assignment.hard [], 0, false⟩

instance {ε α : Type} [DecidableEq ε] [DecidableEq α] :
    DecidableEq (Except ε α) := fun a b =>
  match a, b with
  | Except.error e1, Except.error e2 => decidable_of_iff (e1 = e2) (by simp)
  | Except.error _, Except.ok _ => isFalse (by simp)
  | Except.ok _, Except.error _ => isFalse (by simp)
  | Except.ok a1, Except.ok a2 => decidable_of_iff (a1 = a2) (by simp)

/-- The model obtained by fitting `Dc` with `k = 2`, seed `0`, one iteration
and tolerance `0`, written out literally (the equality with the fit result is
proved below). -/
def Mc : ClusteringModel :=
  ⟨[0, 1], 2, Mode.hard, [[1, 1], [12, 12]], Assignment.hard [0, 0, 0, 1],
    1, false⟩

/-- Grid of the concrete centroid-update instance. -/
def gw : List ℚ := [0, 1]

/-- Observations of the concrete centroid-update instance. -/
def xsw : List (List ℚ) := [[0, 0], [4, 4]]

/-- Centroids of the concrete centroid-update instance. -/
def csw : List (List ℚ) := [[0, 0], [4, 4]]

end Clustering

namespace Clustering

/-! ### Basic list access lemmas -/

theorem getD_map_lt {α β : Type} (f : α → β) (l : List α) (i : ℕ)
    (h : i < l.length) (d : α) (d2 : β) :
    (l.map f).getD i d2 = f (l.getD i d) := by
  rw [List.getD_eq_getElem _ _ (by simpa using h), List.getD_eq_getElem _ _ h,
    List.getElem_map]

theorem getD_range_lt (n i : ℕ) (h : i < n) : (List.range n).getD i 0 = i := by
  rw [List.getD_eq_getElem _ _ (by simpa using h)]
  exact List.getElem_range i _

theorem getD_mem_of_lt {α : Type} (l : List α) (i : ℕ) (h : i < l.length)
    (d : α) : l.getD i d ∈ l := by
  rw [List.getD_eq_getElem _ _ h]
  exact List.getElem_mem h

/-! ### The argmin function: nearest index, ties to the lowest index -/

theorem argminIdx_lt : ∀ (l : List ℚ), l ≠ [] → argminIdx l < l.length
  | [], h => absurd rfl h
  | [_], _ => by simp [argminIdx]
  | d :: e :: rest, _ => by
      rw [argminIdx]
      by_cases h : d ≤ (e :: rest).getD (argminIdx (e :: rest)) 0
      · rw [if_pos h]; simp
      · rw [if_neg h]
        have := argminIdx_lt (e :: rest) (by simp)
        simp only [List.length_cons] at this ⊢
        omega

theorem getD_argminIdx_le :
    ∀ (l : List ℚ) (i : ℕ), i < l.length →
      l.getD (argminIdx l) 0 ≤ l.getD i 0
  | [], i, hi => by simp at hi
  | [d], i, hi => by
      have : i = 0 := by simpa using hi
      subst this
      simp [argminIdx]
  | d :: e :: rest, i, hi => by
      rw [argminIdx]
      by_cases h : d ≤ (e :: rest).getD (argminIdx (e :: rest)) 0
      · rw [if_pos h]
        cases i with
        | zero => simp
        | succ i2 =>
            have hIH :=
              getD_argminIdx_le (e :: rest) i2 (by simpa using hi)
            simp only [List.getD_cons_zero, List.getD_cons_succ]
            exact le_trans h hIH
      · rw [if_neg h]
        cases i with
        | zero =>
            simp only [List.getD_cons_zero, List.getD_cons_succ]
            exact le_of_lt (lt_of_not_le h)
        | succ i2 =>
            simp only [List.getD_cons_succ]
            exact getD_argminIdx_le (e :: rest) i2 (by simpa using hi)

theorem getD_lt_of_lt_argminIdx :
    ∀ (l : List ℚ) (i : ℕ), i < argminIdx l →
      l.getD (argminIdx l) 0 < l.getD i 0
  | [], i, hi => by simp [argminIdx] at hi
  | [d], i, hi => by simp [argminIdx] at hi
  | d :: e :: rest, i, hi => by
      rw [argminIdx] at hi ⊢
      by_cases h : d ≤ (e :: rest).getD (argminIdx (e :: rest)) 0
      · rw [if_pos h] at hi
        exact absurd hi (by omega)
      · rw [if_neg h] at hi ⊢
        cases i with
        | zero =>
            simp only [List.getD_cons_zero, List.getD_cons_succ]
            exact lt_of_not_le h
        | succ i2 =>
            simp only [List.getD_cons_succ]
            exact getD_lt_of_lt_argminIdx (e :: rest) i2 (by omega)

/-! ### Step and loop invariants -/

theorem length_hardStep (g : List ℚ) (xs cs : List (List ℚ)) :
    (hardStep g xs cs).length = cs.length := by
  simp [hardStep]

theorem length_fuzzyStep (e : ℕ) (g : List ℚ) (xs cs : List (List ℚ)) :
    (fuzzyStep e g xs cs).length = cs.length := by
  simp [fuzzyStep]

theorem length_stepFn (mode : Mode) (g : List ℚ) (xs cs : List (List ℚ)) :
    (stepFn mode g xs cs).length = cs.length := by
  cases mode with
  | hard => simp [stepFn, length_hardStep]
  | fuzzy e => simp [stepFn, length_fuzzyStep]

theorem runLoop_length (step : List (List ℚ) → List (List ℚ))
    (h : ∀ cs, (step cs).length = cs.length) :
    ∀ (tol : ℚ) (n : ℕ) (cs : List (List ℚ)),
      (runLoop step tol n cs).1.length = cs.length
  | _, 0, _ => rfl
  | tol, Nat.succ n, cs => by
      rw [runLoop]
      by_cases hc : maxMove cs (step cs) < tol
      · rw [if_pos hc]; exact h cs
      · rw [if_neg hc]
        have := runLoop_length step h tol n (step cs)
        simpa [h cs] using this

theorem runLoop_iterations_le (step : List (List ℚ) → List (List ℚ)) :
    ∀ (tol : ℚ) (n : ℕ) (cs : List (List ℚ)),
      (runLoop step tol n cs).2.1 ≤ n
  | _, 0, _ => le_refl 0
  | tol, Nat.succ n, cs => by
      rw [runLoop]
      by_cases hc : maxMove cs (step cs) < tol
      · rw [if_pos hc]; simp
      · rw [if_neg hc]
        have := runLoop_iterations_le step tol n (step cs)
        simpa using this

theorem runLoop_not_converged (step : List (List ℚ) → List (List ℚ)) :
    ∀ (tol : ℚ) (n : ℕ) (cs : List (List ℚ)),
      (runLoop step tol n cs).2.2 = false → (runLoop step tol n cs).2.1 = n
  | _, 0, _, _ => rfl
  | tol, Nat.succ n, cs, hfalse => by
      rw [runLoop] at hfalse ⊢
      by_cases hc : maxMove cs (step cs) < tol
      · rw [if_pos hc] at hfalse
        exact absurd hfalse (by simp)
      · rw [if_neg hc] at hfalse ⊢
        have := runLoop_not_converged step tol n (step cs) (by simpa using hfalse)
        simpa using this

theorem runLoop_flag_false (step : List (List ℚ) → List (List ℚ)) (tol : ℚ) :
    ∀ (n : ℕ) (cs : List (List ℚ)),
      (∀ i, i < n → ¬ maxMove (step^[i] cs) (step^[i + 1] cs) < tol) →
      (runLoop step tol n cs).2.2 = false
  | 0, _, _ => rfl
  | Nat.succ n, cs, h => by
      rw [runLoop]
      have h0 : ¬ maxMove cs (step cs) < tol := h 0 (Nat.succ_pos n)
      rw [if_neg h0]
      exact runLoop_flag_false step tol n (step cs)
        (fun i hi => h (i + 1) (by omega))

/-! ### Initialization -/

theorem length_pickDistinct :
    ∀ (s k : ℕ) (avail : List ℕ), k ≤ avail.length →
      (pickDistinct s k avail).length = k
  | _, 0, _, _ => rfl
  | s, Nat.succ k2, avail, h => by
      have havail : avail ≠ [] := by
        intro he
        subst he
        simp at h
      rw [pickDistinct, if_neg havail]
      simp only [List.length_cons]
      have hpos : 0 < avail.length := List.length_pos.mpr havail
      have hlt : lcg s % avail.length < avail.length := Nat.mod_lt _ hpos
      have herase : (avail.eraseIdx (lcg s % avail.length)).length =
          avail.length - 1 := by
        rw [List.length_eraseIdx]
        simp [hlt]
      rw [length_pickDistinct (lcg s) k2 _ (by omega)]

theorem length_initCentroids (seed k : ℕ) (xs : List (List ℚ))
    (h : k ≤ xs.length) : (initCentroids seed k xs).length = k := by
  rw [initCentroids, List.length_map,
    length_pickDistinct _ _ _ (by simpa using h)]

/-! ### Nonnegativity of the distance -/

theorem trapWeight_nonneg (g : List ℚ) (hg : gridOrdered g) (i : ℕ)
    (hi : i < g.length) : 0 ≤ trapWeight g i := by
  have hb : min (i + 1) (g.length - 1) < g.length := by omega
  have ha : i - 1 < min (i + 1) (g.length - 1) + 1 := by omega
  have hle := hg (min (i + 1) (g.length - 1)) hb (i - 1) ha
  rw [trapWeight]
  exact div_nonneg (sub_nonneg.mpr hle) (by norm_num)

theorem dist2_nonneg (g : List ℚ) (hg : gridOrdered g) (x y : List ℚ) :
    0 ≤ dist2 g x y := by
  apply List.sum_nonneg
  intro q hq
  rcases List.mem_map.mp hq with ⟨i, hi, rfl⟩
  exact mul_nonneg (trapWeight_nonneg g hg i (List.mem_range.mp hi))
    (sq_nonneg _)

/-! ### The membership vector: length, nonnegativity, unit sum -/

theorem zeroIdx_none :
    ∀ (l : List ℚ), zeroIdx l = none → ∀ q ∈ l, q ≠ 0
  | [], _, q, hq => by simp at hq
  | d :: rest, h, q, hq => by
      rw [zeroIdx] at h
      by_cases hd : d = 0
      · rw [if_pos hd] at h
        exact absurd h (by simp)
      · rw [if_neg hd] at h
        rcases List.mem_cons.mp hq with h1 | h1
        · rw [h1]; exact hd
        · refine zeroIdx_none rest ?_ q h1
          cases hz : zeroIdx rest with
          | none => rfl
          | some j => rw [hz] at h; simp at h

theorem zeroIdx_some_lt :
    ∀ (l : List ℚ) (i : ℕ), zeroIdx l = some i → i < l.length
  | [], i, h => by simp [zeroIdx] at h
  | d :: rest, i, h => by
      rw [zeroIdx] at h
      by_cases hd : d = 0
      · rw [if_pos hd] at h
        have : i = 0 := by simpa using h.symm
        subst this
        simp
      · rw [if_neg hd] at h
        cases hz : zeroIdx rest with
        | none => rw [hz] at h; simp at h
        | some j =>
            rw [hz] at h
            have hji : j + 1 = i := by simpa using h
            have := zeroIdx_some_lt rest j hz
            simp only [List.length_cons]
            omega

theorem sum_indicator_range (n : ℕ) :
    ∀ i : ℕ, i < n →
      ((List.range n).map (fun j => if j = i then (1 : ℚ) else 0)).sum = 1 := by
  induction n with
  | zero => intro i h; omega
  | succ n ih =>
      intro i h
      rw [List.range_succ, List.map_append, List.sum_append]
      by_cases hi : i = n
      · subst hi
        have h0 : ((List.range i).map
            (fun j => if j = i then (1 : ℚ) else 0)).sum = 0 := by
          apply List.sum_eq_zero
          intro x hx
          rcases List.mem_map.mp hx with ⟨j, hj, rfl⟩
          have : j < i := List.mem_range.mp hj
          simp [Nat.ne_of_lt this]
        simp [h0]
      · have hi2 : i < n := by omega
        rw [ih i hi2]
        have : n ≠ i := fun he => hi he.symm
        simp [this]

theorem sum_map_div (l : List ℚ) (c : ℚ) :
    (l.map (fun x => x / c)).sum = l.sum / c := by
  induction l with
  | nil => simp
  | cons a t ih => simp [ih, add_div]

theorem membership_length (e : ℕ) (ds : List ℚ) :
    (membership e ds).length = ds.length := by
  rw [membership]
  split <;> simp

theorem membership_nonneg (e : ℕ) (ds : List ℚ) (hnn : ∀ q ∈ ds, 0 ≤ q) :
    ∀ u ∈ membership e ds, 0 ≤ u := by
  rw [membership]
  split
  · next i hz =>
      intro u hu
      rcases List.mem_map.mp hu with ⟨j, _, rfl⟩
      by_cases hj : j = i
      · simp [hj]
      · simp [hj]
  · next hz =>
      intro u hu
      rcases List.mem_map.mp hu with ⟨w, hw, rfl⟩
      rcases List.mem_map.mp hw with ⟨dq, hd, rfl⟩
      have hdpos : 0 < dq :=
        lt_of_le_of_ne (hnn dq hd) (Ne.symm (zeroIdx_none ds hz dq hd))
      have hwpos : 0 < (1 / dq) ^ e := pow_pos (by positivity) e
      have hsum : 0 < (ds.map (fun d => (1 / d) ^ e)).sum := by
        apply List.sum_pos
        · intro x hx
          rcases List.mem_map.mp hx with ⟨dq2, hd2, rfl⟩
          have : 0 < dq2 :=
            lt_of_le_of_ne (hnn dq2 hd2) (Ne.symm (zeroIdx_none ds hz dq2 hd2))
          positivity
        · simp only [ne_eq, List.map_eq_nil_iff]
          exact List.ne_nil_of_mem hd
      exact le_of_lt (div_pos hwpos hsum)

theorem membership_sum (e : ℕ) (ds : List ℚ) (hne : ds ≠ [])
    (hnn : ∀ q ∈ ds, 0 ≤ q) : (membership e ds).sum = 1 := by
  rw [membership]
  split
  · next i hz => exact sum_indicator_range _ i (zeroIdx_some_lt _ i hz)
  · next hz =>
      rw [sum_map_div]
      apply div_self
      apply ne_of_gt
      apply List.sum_pos
      · intro x hx
        rcases List.mem_map.mp hx with ⟨dq, hd, rfl⟩
        have : 0 < dq :=
          lt_of_le_of_ne (hnn dq hd) (Ne.symm (zeroIdx_none ds hz dq hd))
        positivity
      · simpa using hne

/-! ### Mean and weighted mean bounds -/

theorem sum_le_length_mul (l : List ℚ) (c : ℚ) (h : ∀ x ∈ l, x ≤ c) :
    l.sum ≤ (l.length : ℚ) * c := by
  simpa [nsmul_eq_mul] using List.sum_le_card_nsmul l c h

theorem length_mul_le_sum (l : List ℚ) (c : ℚ) (h : ∀ x ∈ l, c ≤ x) :
    (l.length : ℚ) * c ≤ l.sum := by
  simpa [nsmul_eq_mul] using List.card_nsmul_le_sum l c h

theorem zip_mul_sum_le {β : Type} (c : ℚ) (f : β → ℚ) :
    ∀ (ws : List ℚ) (vs : List β), ws.length = vs.length →
      (∀ w ∈ ws, 0 ≤ w) → (∀ v ∈ vs, f v ≤ c) →
      ((ws.zip vs).map (fun p => p.1 * f p.2)).sum ≤ c * ws.sum
  | [], [], _, _, _ => by simp
  | [], _ :: _, h, _, _ => by simp at h
  | _ :: _, [], h, _, _ => by simp at h
  | w :: ws, v :: vs, h, hw, hv => by
      simp only [List.zip_cons_cons, List.map_cons, List.sum_cons]
      have h1 : w * f v ≤ w * c :=
        mul_le_mul_of_nonneg_left (hv v (by simp)) (hw w (by simp))
      have h2 := zip_mul_sum_le c f ws vs (by simpa using h)
        (fun x hx => hw x (by simp [hx])) (fun x hx => hv x (by simp [hx]))
      calc w * f v + ((ws.zip vs).map (fun p => p.1 * f p.2)).sum
          ≤ w * c + c * ws.sum := add_le_add h1 h2
        _ = c * (w + ws.sum) := by ring

theorem le_zip_mul_sum {β : Type} (c : ℚ) (f : β → ℚ) :
    ∀ (ws : List ℚ) (vs : List β), ws.length = vs.length →
      (∀ w ∈ ws, 0 ≤ w) → (∀ v ∈ vs, c ≤ f v) →
      c * ws.sum ≤ ((ws.zip vs).map (fun p => p.1 * f p.2)).sum
  | [], [], _, _, _ => by simp
  | [], _ :: _, h, _, _ => by simp at h
  | _ :: _, [], h, _, _ => by simp at h
  | w :: ws, v :: vs, h, hw, hv => by
      simp only [List.zip_cons_cons, List.map_cons, List.sum_cons]
      have h1 : w * c ≤ w * f v :=
        mul_le_mul_of_nonneg_left (hv v (by simp)) (hw w (by simp))
      have h2 := le_zip_mul_sum c f ws vs (by simpa using h)
        (fun x hx => hw x (by simp [hx])) (fun x hx => hv x (by simp [hx]))
      calc c * (w + ws.sum) = w * c + c * ws.sum := by ring
        _ ≤ w * f v + ((ws.zip vs).map (fun p => p.1 * f p.2)).sum :=
            add_le_add h1 h2

/-! ### Structure of a successful fit -/

theorem fit_eq_ok (d : List Obs) (k : ℕ) (mode : Mode) (seed maxIter : ℕ)
    (tol : ℚ) (h1 : d ≠ []) (h2 : 1 ≤ k) (h3 : k ≤ d.length)
    (h4 : gridsMatch d) :
    fit d k mode seed maxIter tol =
      Except.ok (fitModel d k mode seed maxIter tol) := by
  rw [fit, if_neg]
  push_neg
  exact ⟨h1, by omega, by omega, h4⟩

theorem fitModel_centroids_length (d : List Obs) (k : ℕ) (mode : Mode)
    (seed maxIter : ℕ) (tol : ℚ) (h3 : k ≤ d.length) :
    (fitModel d k mode seed maxIter tol).centroids.length = k := by
  show (runLoop (stepFn mode (d.headD ⟨[], []⟩).grid
      (d.map (fun o => o.values))) tol maxIter
      (initCentroids seed k (d.map (fun o => o.values)))).1.length = k
  rw [runLoop_length _ (length_stepFn mode _ _),
    length_initCentroids _ _ _ (by simpa using h3)]

/-! ### Claim theorems -/

/-- Claim C1: for every valid `k` and every non-empty dataset whose
observations share one grid, the hard-clustering fit assigns every observation
index exactly one cluster label (the label list has exactly one entry per
observation), and every label is an integer in `[0, k)`. -/
theorem hard_fit_unique_inrange_labels (d : List Obs) (k seed maxIter : ℕ)
    (tol : ℚ) (h1 : d ≠ []) (h2 : 1 ≤ k) (h3 : k ≤ d.length)
    (h4 : gridsMatch d) :
    ∃ m labels, fit d k Mode.hard seed maxIter tol = Except.ok m ∧
      m.assign = Assignment.hard labels ∧ labels.length = d.length ∧
      ∀ l ∈ labels, l < k := by
  refine ⟨fitModel d k Mode.hard seed maxIter tol,
    assignHard (d.headD ⟨[], []⟩).grid
      (fitModel d k Mode.hard seed maxIter tol).centroids
      (d.map (fun o => o.values)),
    fit_eq_ok d k Mode.hard seed maxIter tol h1 h2 h3 h4, ?_, ?_, ?_⟩
  · rfl
  · simp [assignHard]
  · intro l hl
    rcases List.mem_map.mp hl with ⟨x, _, rfl⟩
    have hk : (fitModel d k Mode.hard seed maxIter tol).centroids.length = k :=
      fitModel_centroids_length d k Mode.hard seed maxIter tol h3
    have hcs : (fitModel d k Mode.hard seed maxIter tol).centroids ≠ [] := by
      intro he
      rw [he] at hk
      simp at hk
      omega
    have hne : distsTo (d.headD ⟨[], []⟩).grid
        (fitModel d k Mode.hard seed maxIter tol).centroids x ≠ [] := by
      simp only [distsTo, ne_eq, List.map_eq_nil_iff]
      exact hcs
    have hlt := argminIdx_lt _ hne
    simp only [distsTo, List.length_map] at hlt
    rw [hk] at hlt
    exact hlt

/-- Claim C1 witness: the general theorem instantiated on the concrete
dataset `Dw` with `k = 2`. -/
theorem hard_fit_unique_inrange_labels_witness :
    ∃ m labels, fit Dw 2 Mode.hard 0 3 0 = Except.ok m ∧
      m.assign = Assignment.hard labels ∧ labels.length = Dw.length ∧
      ∀ l ∈ labels, l < 2 :=
  hard_fit_unique_inrange_labels Dw 2 0 3 0 (by decide) (by decide)
    (by decide) (by decide)

/-- Claim C3: `fit` and `predict` are deterministic pure functions of their
inputs: equal datasets and identical parameters (including the seed) give
identical results.  In this embedding the kernel is a pure function whose only
randomness source is the seed argument, so determinism holds by
construction. -/
theorem fit_predict_deterministic (d1 d2 : List Obs) (k : ℕ) (mode : Mode)
    (seed maxIter : ℕ) (tol : ℚ) (m : ClusteringModel) (d3 d4 : List Obs)
    (hfit : d1 = d2) (hpred : d3 = d4) :
    fit d1 k mode seed maxIter tol = fit d2 k mode seed maxIter tol ∧
      predict m d3 = predict m d4 := by
  subst hfit
  subst hpred
  exact ⟨rfl, rfl⟩

/-- Claim C3 witness: determinism instantiated on the concrete dataset `Dw`. -/
theorem fit_predict_deterministic_witness :
    fit Dw 2 Mode.hard 2 5 0 = fit Dw 2 Mode.hard 2 5 0 ∧
      predict defaultModel Dw = predict defaultModel Dw :=
  fit_predict_deterministic Dw Dw 2 Mode.hard 2 5 0 defaultModel Dw Dw rfl rfl

/-- Claim C4: `predict` on exactly the observations used during `fit` returns
the very labels (hard mode) or membership vectors (fuzzy mode) the fit
produced. -/
theorem predict_consistent_with_fit (d : List Obs) (k : ℕ) (mode : Mode)
    (seed maxIter : ℕ) (tol : ℚ) (m : ClusteringModel)
    (h : fit d k mode seed maxIter tol = Except.ok m) :
    predict m d = Except.ok m.assign := by
  rw [fit] at h
  by_cases hc : d = [] ∨ k < 1 ∨ d.length < k ∨ ¬ gridsMatch d
  · rw [if_pos hc] at h
    exact absurd h (by simp)
  · rw [if_neg hc] at h
    have hm : m = fitModel d k mode seed maxIter tol :=
      (Except.ok.inj h).symm
    push_neg at hc
    subst hm
    rw [predict, if_pos]
    · rfl
    · intro o ho
      exact hc.2.2.2 o ho

/-- Claim C4 witness: fit-predict consistency on the concrete dataset `Dw`. -/
theorem predict_consistent_with_fit_witness :
    predict (fitModel Dw 2 Mode.hard 0 2 0) Dw =
      Except.ok (fitModel Dw 2 Mode.hard 0 2 0).assign :=
  predict_consistent_with_fit Dw 2 Mode.hard 0 2 0
    (fitModel Dw 2 Mode.hard 0 2 0)
    (fit_eq_ok Dw 2 Mode.hard 0 2 0 (by decide) (by decide) (by decide)
      (by decide))

/-- Claim C2: after a fuzzy-mode fit on a valid dataset (shared ordered grid),
every observation gets a membership vector of length `k` whose entries are
nonnegative and sum exactly to `1` (exact in `ℚ`, hence within any floating
tolerance). -/
theorem fuzzy_fit_membership_rows (d : List Obs) (k e seed maxIter : ℕ)
    (tol : ℚ) (h1 : d ≠ []) (h2 : 1 ≤ k) (h3 : k ≤ d.length)
    (h4 : gridsMatch d) (h5 : gridOrdered (d.headD ⟨[], []⟩).grid) :
    ∃ m U, fit d k (Mode.fuzzy e) seed maxIter tol = Except.ok m ∧
      m.assign = Assignment.fuzzy U ∧ U.length = d.length ∧
      ∀ u ∈ U, u.length = k ∧ (∀ q ∈ u, 0 ≤ q) ∧ u.sum = 1 := by
  refine ⟨fitModel d k (Mode.fuzzy e) seed maxIter tol, _,
    fit_eq_ok d k (Mode.fuzzy e) seed maxIter tol h1 h2 h3 h4, rfl, ?_, ?_⟩
  · simp
  · intro u hu
    rcases List.mem_map.mp hu with ⟨x, _, rfl⟩
    have hk :=
      fitModel_centroids_length d k (Mode.fuzzy e) seed maxIter tol h3
    have hcs :
        (fitModel d k (Mode.fuzzy e) seed maxIter tol).centroids ≠ [] := by
      intro he
      rw [he] at hk
      simp at hk
      omega
    have hlen : (distsTo (d.headD ⟨[], []⟩).grid
        (fitModel d k (Mode.fuzzy e) seed maxIter tol).centroids x).length
          = k := by
      simp [distsTo, hk]
    have hne : distsTo (d.headD ⟨[], []⟩).grid
        (fitModel d k (Mode.fuzzy e) seed maxIter tol).centroids x ≠ [] := by
      simp only [distsTo, ne_eq, List.map_eq_nil_iff]
      exact hcs
    have hnn : ∀ q ∈ distsTo (d.headD ⟨[], []⟩).grid
        (fitModel d k (Mode.fuzzy e) seed maxIter tol).centroids x, 0 ≤ q := by
      intro q hq
      rcases List.mem_map.mp hq with ⟨c, _, rfl⟩
      exact dist2_nonneg _ h5 _ _
    exact ⟨by rw [membership_length]; exact hlen, membership_nonneg e _ hnn,
      membership_sum e _ hne hnn⟩

/-- Claim C2 witness: the fuzzy-fit membership theorem instantiated on the
concrete dataset `Dw` with `k = 2` and membership exponent `2`. -/
theorem fuzzy_fit_membership_rows_witness :
    ∃ m U, fit Dw 2 (Mode.fuzzy 2) 0 3 0 = Except.ok m ∧
      m.assign = Assignment.fuzzy U ∧ U.length = Dw.length ∧
      ∀ u ∈ U, u.length = 2 ∧ (∀ q ∈ u, 0 ≤ q) ∧ u.sum = 1 :=
  fuzzy_fit_membership_rows Dw 2 2 0 3 0 (by decide) (by decide) (by decide)
    (by decide) (by decide)

/-- Claim C8: in hard mode each observation is assigned to a centroid at
minimum integrated squared-difference distance, and every centroid with a
strictly smaller index than the chosen one is at strictly greater distance
(ties are broken by the lowest cluster index). -/
theorem hard_assignment_nearest_tiebreak (g : List ℚ)
    (cs xs : List (List ℚ)) (i : ℕ) (hi : i < xs.length) (hcs : cs ≠ []) :
    (assignHard g cs xs).getD i 0 < cs.length ∧
    (∀ j, j < cs.length →
      dist2 g (cs.getD ((assignHard g cs xs).getD i 0) []) (xs.getD i []) ≤
        dist2 g (cs.getD j []) (xs.getD i [])) ∧
    (∀ j, j < (assignHard g cs xs).getD i 0 →
      dist2 g (cs.getD j []) (xs.getD i []) >
        dist2 g (cs.getD ((assignHard g cs xs).getD i 0) []) (xs.getD i []))
    := by
  have hA : (assignHard g cs xs).getD i 0 =
      argminIdx (distsTo g cs (xs.getD i [])) := by
    rw [assignHard, getD_map_lt _ xs i hi [] 0]
  have hlen : (distsTo g cs (xs.getD i [])).length = cs.length := by
    simp [distsTo]
  have hne : distsTo g cs (xs.getD i []) ≠ [] := by
    simp only [distsTo, ne_eq, List.map_eq_nil_iff]
    exact hcs
  have harg : argminIdx (distsTo g cs (xs.getD i [])) < cs.length := by
    have := argminIdx_lt _ hne
    rwa [hlen] at this
  have hd : ∀ j, j < cs.length →
      (distsTo g cs (xs.getD i [])).getD j 0 =
        dist2 g (cs.getD j []) (xs.getD i []) := by
    intro j hj
    rw [distsTo, getD_map_lt _ cs j hj [] 0]
  refine ⟨by rw [hA]; exact harg, ?_, ?_⟩
  · intro j hj
    have h1 := getD_argminIdx_le (distsTo g cs (xs.getD i [])) j
      (by rw [hlen]; exact hj)
    rw [hd j hj, hd _ harg] at h1
    rw [hA]
    exact h1
  · intro j hj
    rw [hA] at hj
    have h1 := getD_lt_of_lt_argminIdx (distsTo g cs (xs.getD i [])) j hj
    have hjlt : j < cs.length := lt_trans hj harg
    rw [hd j hjlt, hd _ harg] at h1
    rw [hA]
    exact h1

/-- Claim C8 witness: the nearest-centroid property instantiated on a concrete
grid, two concrete centroids and two concrete observations. -/
theorem hard_assignment_nearest_tiebreak_witness :
    (assignHard gw csw xsw).getD 0 0 < csw.length ∧
    (∀ j, j < csw.length →
      dist2 gw (csw.getD ((assignHard gw csw xsw).getD 0 0) [])
          (xsw.getD 0 []) ≤
        dist2 gw (csw.getD j []) (xsw.getD 0 [])) ∧
    (∀ j, j < (assignHard gw csw xsw).getD 0 0 →
      dist2 gw (csw.getD j []) (xsw.getD 0 []) >
        dist2 gw (csw.getD ((assignHard gw csw xsw).getD 0 0) [])
          (xsw.getD 0 [])) :=
  hard_assignment_nearest_tiebreak gw csw xsw 0 (by decide) (by decide)

theorem foldr_max_nonneg (l : List ℚ) : 0 ≤ l.foldr max 0 := by
  induction l with
  | nil => exact le_refl 0
  | cons a t ih =>
      simp only [List.foldr_cons]
      exact le_trans ih (le_max_right a _)

theorem maxMove_nonneg (as bs : List (List ℚ)) : 0 ≤ maxMove as bs := by
  rw [maxMove]
  exact foldr_max_nonneg _

/-! ### Concrete evaluations used by the hull counterexample and witness -/

theorem dist2_pair (a b : ℚ) : dist2 [0, 1] [a, a] [b, b] = (a - b) ^ 2 := by
  rw [dist2]
  norm_num [trapWeight, (show List.range 2 = [0, 1] from rfl)]
  ring

theorem argminIdx_pair (d0 d1 : ℚ) :
    argminIdx [d0, d1] = if d0 ≤ d1 then 0 else 1 := by
  rw [argminIdx]
  simp [argminIdx]

theorem assignHard_w : assignHard gw csw xsw = [0, 1] := by
  norm_num [assignHard, gw, csw, xsw, distsTo, dist2_pair, argminIdx_pair]

theorem fuzzyWeights_w : fuzzyWeights 2 gw xsw csw 0 = [1, 0] := by
  norm_num [fuzzyWeights, gw, csw, xsw, distsTo, dist2_pair, membership,
    zeroIdx, (show List.range 2 = [0, 1] from rfl)]

theorem initCentroids_Dc :
    initCentroids 0 2 [[0, 0], [2, 2], [4, 4], [20, 20]] = [[2, 2], [4, 4]]
    := by decide

theorem assignHard_Dc_init :
    assignHard [0, 1] [[2, 2], [4, 4]] [[0, 0], [2, 2], [4, 4], [20, 20]]
      = [0, 0, 1, 1] := by
  norm_num [assignHard, distsTo, dist2_pair, argminIdx_pair]

theorem clusterMembers_Dc0 :
    clusterMembers [0, 0, 1, 1] [[0, 0], [2, 2], [4, 4], [20, 20]] 0
      = [[0, 0], [2, 2]] := by decide

theorem clusterMembers_Dc1 :
    clusterMembers [0, 0, 1, 1] [[0, 0], [2, 2], [4, 4], [20, 20]] 1
      = [[4, 4], [20, 20]] := by decide

theorem pointwiseMean_Dc0 : pointwiseMean [[0, 0], [2, 2]] 2 = [1, 1] := by
  norm_num [pointwiseMean, (show List.range 2 = [0, 1] from rfl)]

theorem pointwiseMean_Dc1 : pointwiseMean [[4, 4], [20, 20]] 2 = [12, 12]
    := by
  norm_num [pointwiseMean, (show List.range 2 = [0, 1] from rfl)]

theorem hardStep_Dc :
    hardStep [0, 1] [[0, 0], [2, 2], [4, 4], [20, 20]] [[2, 2], [4, 4]]
      = [[1, 1], [12, 12]] := by
  norm_num [hardStep, assignHard_Dc_init, clusterMembers_Dc0,
    clusterMembers_Dc1, pointwiseMean_Dc0, pointwiseMean_Dc1,
    (show List.range 2 = [0, 1] from rfl)]
  exact ⟨List.cons_ne_nil _ _, List.cons_ne_nil _ _⟩

theorem assignHard_Dc_final :
    assignHard [0, 1] [[1, 1], [12, 12]] [[0, 0], [2, 2], [4, 4], [20, 20]]
      = [0, 0, 0, 1] := by
  norm_num [assignHard, distsTo, dist2_pair, argminIdx_pair]

theorem runLoop_Dc :
    runLoop (stepFn Mode.hard [0, 1] [[0, 0], [2, 2], [4, 4], [20, 20]]) 0 1
      [[2, 2], [4, 4]] = ([[1, 1], [12, 12]], 1, false) := by
  rw [runLoop, if_neg (not_lt.mpr (maxMove_nonneg _ _))]
  rw [runLoop]
  norm_num [stepFn, hardStep_Dc]

theorem fit_Dc_eq : fit Dc 2 Mode.hard 0 1 0 = Except.ok Mc := by
  rw [fit_eq_ok Dc 2 Mode.hard 0 1 0 (by decide) (by decide) (by decide)
    (by decide)]
  congr 1
  simp only [fitModel]
  rw [show (Dc.headD ⟨[], []⟩).grid = [0, 1] from rfl]
  rw [show Dc.map (fun o => o.values) = [[0, 0], [2, 2], [4, 4], [20, 20]]
    from rfl]
  rw [initCentroids_Dc, runLoop_Dc]
  norm_num [mkAssign, assignHard_Dc_final, Mc]

/-- Claim C7 counterexample: fitting `Dc` (`k = 2`, seed `0`, one iteration,
`tol = 0`) yields the model `Mc` whose final hard labels assign exactly the
observation `[20, 20]` to cluster `1`, yet the centroid of cluster `1` has
value `12` at grid point `0` — strictly below every value of its assigned
observations, hence outside their convex hull.  (The final labels are computed
against the final centroids, while those centroids are the means of the
assignment of the previous iteration, so on non-converged fits the claim as
stated fails.) -/
theorem centroid_hull_counterexample :
    fit Dc 2 Mode.hard 0 1 0 = Except.ok Mc ∧
    Mc.assign = Assignment.hard [0, 0, 0, 1] ∧
    clusterMembers [0, 0, 0, 1] (Dc.map (fun o => o.values)) 1 = [[20, 20]] ∧
    ∀ v ∈ clusterMembers [0, 0, 0, 1] (Dc.map (fun o => o.values)) 1,
      (Mc.centroids.getD 1 []).getD 0 0 < v.getD 0 0 :=
  ⟨fit_Dc_eq, by decide, by decide, by decide⟩

set_option maxHeartbeats 1600000 in
/-- Claim C7 (amended): every centroid actually recomputed during an update
step lies, at every grid point, between any lower and any upper bound of the
values of the observations it was computed from — in hard mode the
observations assigned to the cluster in that step, in fuzzy mode all
observations weighted by their memberships. -/
theorem centroid_update_within_hull (g : List ℚ) (xs cs : List (List ℚ))
    (e j t : ℕ) (lo hi2 : ℚ) (hj : j < cs.length) (ht : t < g.length)
    (hg : gridOrdered g) :
    (clusterMembers (assignHard g cs xs) xs j ≠ [] →
      (∀ v ∈ clusterMembers (assignHard g cs xs) xs j, lo ≤ v.getD t 0) →
      (∀ v ∈ clusterMembers (assignHard g cs xs) xs j, v.getD t 0 ≤ hi2) →
      lo ≤ ((hardStep g xs cs).getD j []).getD t 0 ∧
        ((hardStep g xs cs).getD j []).getD t 0 ≤ hi2) ∧
    ((fuzzyWeights e g xs cs j).sum ≠ 0 →
      (∀ v ∈ xs, lo ≤ v.getD t 0) → (∀ v ∈ xs, v.getD t 0 ≤ hi2) →
      lo ≤ ((fuzzyStep e g xs cs).getD j []).getD t 0 ∧
        ((fuzzyStep e g xs cs).getD j []).getD t 0 ≤ hi2) := by
  constructor
  · intro hne hlo hhi
    have hstep : (hardStep g xs cs).getD j [] =
        pointwiseMean (clusterMembers (assignHard g cs xs) xs j) g.length := by
      rw [hardStep, getD_map_lt _ (List.range cs.length) j (by simpa using hj)
        0 [], getD_range_lt cs.length j hj, if_neg hne]
    have hval : (pointwiseMean (clusterMembers (assignHard g cs xs) xs j)
        g.length).getD t 0 =
        ((clusterMembers (assignHard g cs xs) xs j).map
          (fun v => v.getD t 0)).sum /
          ((clusterMembers (assignHard g cs xs) xs j).length : ℚ) := by
      rw [pointwiseMean, getD_map_lt _ (List.range g.length) t
        (by simpa using ht) 0 0, getD_range_lt g.length t ht]
    rw [hstep, hval]
    have hn : (0 : ℚ) < ((clusterMembers (assignHard g cs xs) xs j).length : ℚ)
        := by
      exact_mod_cast List.length_pos.mpr hne
    constructor
    · rw [le_div_iff₀ hn]
      have hb := length_mul_le_sum ((clusterMembers (assignHard g cs xs) xs
          j).map (fun v => v.getD t 0)) lo ?_
      · rw [List.length_map] at hb
        calc lo * ((clusterMembers (assignHard g cs xs) xs j).length : ℚ)
            = ((clusterMembers (assignHard g cs xs) xs j).length : ℚ) * lo :=
              mul_comm _ _
          _ ≤ _ := hb
      · intro x hx
        rcases List.mem_map.mp hx with ⟨v, hv, rfl⟩
        exact hlo v hv
    · rw [div_le_iff₀ hn]
      have hb := sum_le_length_mul ((clusterMembers (assignHard g cs xs) xs
          j).map (fun v => v.getD t 0)) hi2 ?_
      · rw [List.length_map] at hb
        calc ((clusterMembers (assignHard g cs xs) xs j).map
              (fun v => v.getD t 0)).sum
            ≤ ((clusterMembers (assignHard g cs xs) xs j).length : ℚ) * hi2 :=
              hb
          _ = hi2 * ((clusterMembers (assignHard g cs xs) xs j).length : ℚ) :=
              mul_comm _ _
      · intro x hx
        rcases List.mem_map.mp hx with ⟨v, hv, rfl⟩
        exact hhi v hv
  · intro hW hlo hhi
    have hstep : (fuzzyStep e g xs cs).getD j [] =
        weightedPointwiseMean (fuzzyWeights e g xs cs j) xs g.length := by
      rw [fuzzyStep, getD_map_lt _ (List.range cs.length) j (by simpa using hj)
        0 [], getD_range_lt cs.length j hj, if_neg hW]
    have hval : (weightedPointwiseMean (fuzzyWeights e g xs cs j) xs
        g.length).getD t 0 =
        (((fuzzyWeights e g xs cs j).zip xs).map
          (fun p => p.1 * p.2.getD t 0)).sum / (fuzzyWeights e g xs cs j).sum
        := by
      rw [weightedPointwiseMean, getD_map_lt _ (List.range g.length) t
        (by simpa using ht) 0 0, getD_range_lt g.length t ht]
    rw [hstep, hval]
    have hwlen : (fuzzyWeights e g xs cs j).length = xs.length := by
      simp [fuzzyWeights]
    have hwnn : ∀ w ∈ fuzzyWeights e g xs cs j, 0 ≤ w := by
      intro w hw
      rcases List.mem_map.mp hw with ⟨u, hu, rfl⟩
      rcases List.mem_map.mp hu with ⟨x, hx, rfl⟩
      by_cases hjl : j < (membership e (distsTo g cs x)).length
      · refine membership_nonneg e (distsTo g cs x) ?_ _
          (getD_mem_of_lt _ j hjl 0)
        intro q hq
        rcases List.mem_map.mp hq with ⟨c, _, rfl⟩
        exact dist2_nonneg g hg c x
      · rw [List.getD_eq_default _ _ (by omega)]
    have hWpos : 0 < (fuzzyWeights e g xs cs j).sum :=
      lt_of_le_of_ne (List.sum_nonneg hwnn) (Ne.symm hW)
    have hlow := le_zip_mul_sum lo (fun v => v.getD t 0)
      (fuzzyWeights e g xs cs j) xs hwlen hwnn hlo
    have hupp := zip_mul_sum_le hi2 (fun v => v.getD t 0)
      (fuzzyWeights e g xs cs j) xs hwlen hwnn hhi
    constructor
    · rw [le_div_iff₀ hWpos]
      exact hlow
    · rw [div_le_iff₀ hWpos]
      exact hupp

/-- Claim C7 (amended) witness: the hull bound instantiated on the concrete
grid `gw`, observations `xsw` and centroids `csw`, for cluster `0` at grid
point `0` with bounds `0` and `4`. -/
theorem centroid_update_within_hull_witness :
    (0 ≤ ((hardStep gw xsw csw).getD 0 []).getD 0 0 ∧
      ((hardStep gw xsw csw).getD 0 []).getD 0 0 ≤ 4) ∧
    (0 ≤ ((fuzzyStep 2 gw xsw csw).getD 0 []).getD 0 0 ∧
      ((fuzzyStep 2 gw xsw csw).getD 0 []).getD 0 0 ≤ 4) := by
  have h := centroid_update_within_hull gw xsw csw 2 0 0 0 4 (by decide)
    (by decide) (by decide)
  constructor
  · refine h.1 ?_ ?_ ?_
    · rw [assignHard_w]
      decide
    · rw [assignHard_w]
      decide
    · rw [assignHard_w]
      decide
  · refine h.2 ?_ ?_ ?_
    · rw [fuzzyWeights_w]
      norm_num
    · decide
    · decide

/-- Claim C5: `fit` fails with `InvalidArgument` exactly when `k < 1`, `k`
exceeds the number of observations, the dataset is empty, or the observations'
grids differ; the failure is immediate (an `Except.error`, so no model is
produced). -/
theorem fit_invalidArgument_iff (d : List Obs) (k : ℕ) (mode : Mode)
    (seed maxIter : ℕ) (tol : ℚ) :
    fit d k mode seed maxIter tol =
        Except.error ClusterError.invalidArgument ↔
      (k < 1 ∨ d.length < k ∨ d = [] ∨ ¬ gridsMatch d) := by
  rw [fit]
  by_cases hc : d = [] ∨ k < 1 ∨ d.length < k ∨ ¬ gridsMatch d
  · rw [if_pos hc]
    exact iff_of_true rfl (by tauto)
  · rw [if_neg hc]
    push_neg at hc
    refine iff_of_false (by simp) ?_
    rintro (h | h | h | h)
    · omega
    · have := hc.2.2.1; omega
    · exact hc.1 h
    · exact h hc.2.2.2

/-- Claim C6: reaching `maxIter` iterations without the centroid movement
falling below `tol` is not an error: on any valid input `fit` returns a
usable model (`Except.ok`, with all `k` centroids present); when every step of
the centroid trajectory fails the tolerance test — i.e. `maxIter` is reached
without the movement falling below `tol` — the convergence flag is `false`;
and conversely a `false` flag means the full iteration budget was used.  The
`NotConverged` condition is reported as that flag, never raised. -/
theorem fit_notConverged_is_soft (d : List Obs) (k : ℕ) (mode : Mode)
    (seed maxIter : ℕ) (tol : ℚ) (h1 : d ≠ []) (h2 : 1 ≤ k)
    (h3 : k ≤ d.length) (h4 : gridsMatch d) :
    ∃ m, fit d k mode seed maxIter tol = Except.ok m ∧
      m.iterations ≤ maxIter ∧
      ((∀ i, i < maxIter →
          ¬ maxMove (centroidIter d k mode seed i)
              (centroidIter d k mode seed (i + 1)) < tol) →
        m.converged = false) ∧
      (m.converged = false → m.iterations = maxIter) ∧
      m.centroids.length = k := by
  refine ⟨fitModel d k mode seed maxIter tol,
    fit_eq_ok d k mode seed maxIter tol h1 h2 h3 h4, ?_, ?_, ?_,
    fitModel_centroids_length d k mode seed maxIter tol h3⟩
  · exact runLoop_iterations_le _ _ _ _
  · intro htraj
    exact runLoop_flag_false _ _ _ _ htraj
  · intro hcv
    exact runLoop_not_converged _ _ _ _ hcv

/-- Claim C6 witness: on `Dw` with `k = 2`, one iteration and `tol = 0` the
fit returns a model rather than an error, with both directions of the flag
clause instantiated. -/
theorem fit_notConverged_is_soft_witness :
    ∃ m, fit Dw 2 Mode.hard 0 1 0 = Except.ok m ∧
      m.iterations ≤ 1 ∧
      ((∀ i, i < 1 →
          ¬ maxMove (centroidIter Dw 2 Mode.hard 0 i)
              (centroidIter Dw 2 Mode.hard 0 (i + 1)) < 0) →
        m.converged = false) ∧
      (m.converged = false → m.iterations = 1) ∧
      m.centroids.length = 2 :=
  fit_notConverged_is_soft Dw 2 Mode.hard 0 1 0 (by decide) (by decide)
    (by decide) (by decide)

end Clustering

namespace Script

/-- Claim C9: the script passes exactly the sort arguments `0`, `1` and `2` to
`plot_cluster_bars`, with `n_clusters = 3`, and each of them is an integer in
the interval `[0, n_clusters)` required by the reporting interface. -/
theorem sort_args_within_range :
    sort_args = [0, 1, 2] ∧ n_clusters = 3 ∧
      ∀ s ∈ sort_args, s < n_clusters := by decide

/-- Claim C10: in every plotting call, `cluster_colors` and `cluster_labels`
are the `[0, 2, 1]`-permutations of `climate_colors` and `climates`, so both
have length `n_climates = n_clusters` and show, per cluster, exactly the same
set of colors and labels as the first plot shows per climate group. -/
theorem cluster_colors_labels_permutation :
    cluster_colors = [climate_colors.getD 0 0, climate_colors.getD 2 0,
      climate_colors.getD 1 0] ∧
    cluster_labels = [climates.getD 0 emptyLabel, climates.getD 2 emptyLabel,
      climates.getD 1 emptyLabel] ∧
    cluster_colors.length = n_climates ∧
    cluster_labels.length = n_climates ∧
    n_climates = n_clusters ∧
    cluster_colors.Perm climate_colors ∧
    cluster_labels.Perm climates := by
  have hn : n_climates = 3 := rfl
  have hcc : climate_colors = [0, 1/2, 1] := by
    norm_num [climate_colors, hn, (show List.range 3 = [0, 1, 2] from rfl)]
  have hclc : cluster_colors = [0, 1, 1/2] := by
    rw [show cluster_colors = applyIndices 0 climate_colors [0, 2, 1]
      from rfl, hcc]
    norm_num [applyIndices]
  refine ⟨rfl, rfl, rfl, rfl, rfl, ?_, ?_⟩
  · rw [hclc, hcc]
    exact List.Perm.cons 0 (List.Perm.swap (1/2) 1 [])
  · decide

end Script
